import Mathlib

set_option maxRecDepth 2000

/-!
Verification development for cpmadd88.c, a tool that writes one host file
into the trailing free space of a CP/M filesystem embedded in a .d88
disk-container image.

Modelling conventions (shallow embedding of the C source):
* The container file is a function `Image : Nat → Nat`; reading a byte goes
  through `readByte` (which normalises to a byte value, since a file holds
  bytes 0..255), and `fwrite` stores values modulo 256.
* C `int` variables that can go negative (`last_living_FCB_num`, initial
  value -1) are modelled as `Int`; all other counters are `Nat`.
* C `char` is modelled as signed (the usual choice on x86): where the source
  compares a buffer `char` against an `int` (the allocation-map scan in
  `same_name_check`), the byte is first mapped through `charVal`, the value
  of that byte as a signed 8-bit quantity.
* `fread`/`fwrite` act on consecutive container-file offsets, so a 32- or
  128-byte transfer at logical address `a` touches container offsets
  `convert_addr a + j`.  (Records and FCBs never straddle a 256-byte sector,
  so this agrees with the per-sector layout.)
* The fallible parts (missing '.' in the filename, which is undefined
  behaviour in the source via `strrchr(...) + 1`) are made explicit errors,
  following the spec.
-/

/-- A container (.d88) file: byte offset to stored value. -/
abbrev Image := Nat → Nat

/-- Reading one byte of a file: files hold bytes, so normalise mod 256. -/
def readByte (img : Image) (off : Nat) : Nat := img off % 256

def DATA_BLOCK_SIZE : Nat := 2048

def BPS : Nat := 256

def SPT : Nat := 32

def TRACKS : Nat := 40

def RPD : Nat := 16

def num_of_FCBs : Nat := DATA_BLOCK_SIZE * 2 / 32

def num_of_data_blocks : Nat := BPS * SPT * (TRACKS - 2) / DATA_BLOCK_SIZE

/-- Address translation from logical disk address to .d88 container offset
(line 92 of the source): 43 rows of 16 preamble bytes, then a 16-byte header
before every 256-byte sector. -/
def convert_addr (addr : Nat) : Nat := 43 * 16 + 16 + addr + 16 * (addr / 256)

def head_addr_of_data_block (block_number : Nat) : Nat :=
  BPS * SPT * 2 + DATA_BLOCK_SIZE * block_number

def head_addr_of_FCB (FCB_number : Nat) : Nat :=
  head_addr_of_data_block 0 + 32 * FCB_number

def head_addr_of_record (record_number : Nat) : Nat :=
  head_addr_of_data_block (record_number / RPD) + 128 * (record_number % RPD)

/-- Store a list of byte values at consecutive container offsets, as a
sequence of `fwrite`s does. -/
def writeBytes : Image → Nat → List Nat → Image
  | img, _, [] => img
  | img, a, v :: vs => writeBytes (Function.update img a (v % 256)) (a + 1) vs

/-- Outcomes of the tool, following the error taxonomy of the design. -/
inductive Outcome
  | Success
  | NameConflict
  | CapacityExceeded
  | InvalidFilename
deriving DecidableEq

/-- C `toupper` restricted to byte values. -/
def toupper (c : Nat) : Nat := if 97 ≤ c ∧ c ≤ 122 then c - 32 else c

/-- Contents of the global 8-byte name array after `separate_name`: the first
`min len 8` characters of the part before the last dot, uppercased; the
array was initialised with spaces (0x20). -/
def encName (s : List Nat) : Nat → Nat := fun i =>
  if i < 8 ∧ i < s.length then toupper (s.getD i 0) else 32

/-- Contents of the global 3-byte array holding the encoded file name suffix
after `separate_name`: first `min len 3` characters after the last dot,
uppercased, space-padded. -/
def encExt (s : List Nat) : Nat → Nat := fun i =>
  if i < 3 ∧ i < s.length then toupper (s.getD i 0) else 32

/-- Position of the last '.' (byte 46) in a filename, as `strrchr` finds it. -/
def lastDotIdx (l : List Nat) : Option Nat :=
  ((List.range l.length).filter (fun i => l.getD i 0 == 46)).getLast?

/-- Encoded name and suffix produced by `separate_name`. -/
structure NameExt where
  name : Nat → Nat
  extension : Nat → Nat

/-- Model of `separate_name` (source lines 107-119).  With no '.' in the
filename the source dereferences `strrchr(...) + 1`, which is undefined
behaviour; that case is modelled from the spec, which requires an explicit
`InvalidFilename` error. -/
def separate_name (fn : List Nat) : Except Outcome NameExt :=
  match lastDotIdx fn with
  | none => .error .InvalidFilename
  | some d => .ok ⟨encName (fn.take d), encExt (fn.drop (d + 1))⟩

/-- Value of a stored byte when read back into a (signed) C `char`. -/
def charVal (x : Nat) : Int :=
  if x % 256 < 128 then (x % 256 : Int) else (x % 256 : Int) - 256

/-- Byte `j` of directory entry (FCB) number `i`, as read from the container. -/
def entryByte (img : Image) (i j : Nat) : Nat :=
  readByte img (convert_addr (head_addr_of_FCB i) + j)

/-- Model of `is_name_ext` (source lines 136-148): the FCB's name and suffix
bytes all agree with the encoded target. -/
def is_name_ext (img : Image) (nm ex : Nat → Nat) (i : Nat) : Bool :=
  ((List.range 8).all fun j => entryByte img i (1 + j) == nm j) &&
  ((List.range 3).all fun j => entryByte img i (9 + j) == ex j)

/-- State of the directory scan: duplicate-found flag and the two globals
updated by `same_name_check`. -/
structure ScanSt where
  r : Bool
  last_living_FCB_num : Int
  last_living_block_num : Int
deriving DecidableEq

/-- Inner loop of `same_name_check` over one allocation-map byte (source
lines 173-177); the comparison is between an `int` and a `char`, so the byte
is sign-extended. -/
def mapMaxStep (img : Image) (i : Nat) (m : Int) (j : Nat) : Int :=
  if m < charVal (entryByte img i j) then charVal (entryByte img i j) else m

/-- One iteration of the `same_name_check` directory loop (source 163-179). -/
def scanStep (img : Image) (nm ex : Nat → Nat) (st : ScanSt) (i : Nat) : ScanSt :=
  if entryByte img i 0 = 0 then
    ⟨st.r || is_name_ext img nm ex i, (i : Int),
      (List.range' 16 16).foldl (mapMaxStep img i) st.last_living_block_num⟩
  else st

/-- Model of `same_name_check` (source lines 156-183): scan all 128 FCB
slots, flag a name collision, and track the last live slot and the highest
(signed-compared) allocation-map byte, starting from -1 and 1. -/
def same_name_check (img : Image) (nm ex : Nat → Nat) : ScanSt :=
  (List.range num_of_FCBs).foldl (scanStep img nm ex) ⟨false, -1, 1⟩

/-- Number of loop iterations of `write_in` for a source file of `S` bytes:
`fread` of 128 bytes at a time, a final short read included. -/
def numChunks (S : Nat) : Nat := (S + 127) / 128

/-- Contents of `record_buff` on the `k`-th iteration (0-based): the buffer
is refilled with 0x1A by `init_record_buf` before each `fread`, so bytes past
the end of the source file stay 0x1A. -/
def chunk (src : List Nat) (k : Nat) : List Nat :=
  (List.range 128).map fun j =>
    if 128 * k + j < src.length then src.getD (128 * k + j) 0 % 256 else 0x1A

/-- The list of record buffers the write loop processes. -/
def chunks (src : List Nat) : List (List Nat) :=
  (List.range (numChunks src.length)).map (chunk src)

/-- Model of `init_FCB_buf` (source lines 185-196): drive byte 0, encoded
name and suffix, everything from byte 12 up zeroed. -/
def init_FCB_buf (nm ex : Nat → Nat) : Nat → Nat := fun i =>
  if i = 0 then 0
  else if i < 9 then nm (i - 1)
  else if i < 12 then ex (i - 9)
  else 0

/-- The three `FCB_buff` stores of one loop iteration (source lines 246-250),
after `written_records` has been incremented to `wr`: byte 12 gets the
current extent counter, byte 15 the record count (0x80 when a multiple of
128), and one allocation-map byte gets the newly spanned block number. -/
def fcbUpd (llbn : Int) (used wr : Nat) (f : Nat → Nat) : Nat → Nat :=
  let f1 := Function.update f 12 (used % 256)
  let f2 := Function.update f1 15 (if wr % 128 ≠ 0 then wr % 128 else 0x80)
  let written_blocks := wr / 16 + (if wr % 16 ≠ 0 then 1 else 0)
  let offset := (16 + written_blocks - 1) % 16
  Function.update f2 (16 + offset) ((llbn + written_blocks) % 256).toNat

/-- In-memory state of the write loop: the container image so far, the FCB
buffer, and the two counters of `write_in`. -/
structure WSt where
  img : Image
  fcb : Nat → Nat
  used_FCBs : Nat
  written_records : Nat

/-- Model of `save_FCB` (source lines 204-208): write the 32 FCB-buffer
bytes at the container offsets of directory slot `s`. -/
def saveFCBimg (img : Image) (f : Nat → Nat) (s : Nat) : Image :=
  writeBytes img (convert_addr (head_addr_of_FCB s)) ((List.range 32).map f)

/-- Body of one `write_in` loop iteration (source lines 244-260): write the
record, bump the counters, update the FCB buffer, and - only when the total
written-record count equals BPS = 256 - flush and reset the FCB buffer. -/
def loopBody (nm ex : Nat → Nat) (llfn llbn : Int) (c : List Nat) (st : WSt) : WSt :=
  let img1 := writeBytes st.img
    (convert_addr (head_addr_of_record (16 * (llbn + 1) + (st.written_records : Int)).toNat)) c
  let wr := st.written_records + 1
  let f3 := fcbUpd llbn st.used_FCBs wr st.fcb
  let used1 := if wr % 128 = 0 then st.used_FCBs + 1 else st.used_FCBs
  if wr = BPS then
    ⟨saveFCBimg img1 f3 (llfn + 1 + ((used1 % 2 : Nat) : Int)).toNat,
      init_FCB_buf nm ex, used1, wr⟩
  else
    ⟨img1, f3, used1, wr⟩

/-- Result of the write loop: normal termination, or the mid-loop capacity
abort of source lines 238-242 (which returns with whatever was already
persisted). -/
inductive LoopRes
  | ok (st : WSt)
  | nocap (st : WSt)

/-- The `while (fread(...))` loop of `write_in` (source lines 236-261). -/
def writeLoop (nm ex : Nat → Nat) (llfn llbn : Int) : List (List Nat) → WSt → LoopRes
  | [], st => .ok st
  | c :: cs, st =>
    if (num_of_FCBs : Int) ≤ llfn + (st.used_FCBs : Int) ∨
       (RPD : Int) * ((num_of_data_blocks : Nat) : Int) ≤
         (RPD : Int) * (llbn + 1) + (st.written_records : Int) then
      .nocap st
    else
      writeLoop nm ex llfn llbn cs (loopBody nm ex llfn llbn c st)

/-- Model of `write_in` (source lines 216-267): encode the name, scan for a
duplicate, run the record loop, and unconditionally flush the FCB buffer at
the end.  The returned image is the container after all `fwrite`s. -/
def write_in (img : Image) (fn src : List Nat) : Outcome × Image :=
  match separate_name fn with
  | .error e => (e, img)
  | .ok ne =>
    let s := same_name_check img ne.name ne.extension
    if s.r then (.NameConflict, img)
    else
      match writeLoop ne.name ne.extension s.last_living_FCB_num s.last_living_block_num
          (chunks src) ⟨img, init_FCB_buf ne.name ne.extension, 0, 0⟩ with
      | .nocap st => (.CapacityExceeded, st.img)
      | .ok st =>
        (.Success, saveFCBimg st.img st.fcb
          (s.last_living_FCB_num + 1 + ((st.used_FCBs % 2 : Nat) : Int)).toNat)

/-- One record write of the loop, with the scan results already known to be
the naturals `b ≥ 1` (block high-water mark): chunk `k` goes to record
number `16 * (b + 1) + k`. -/
def putRecord (b : Nat) (src : List Nat) (k : Nat) (img : Image) : Image :=
  writeBytes img (convert_addr (head_addr_of_record (16 * (b + 1) + k))) (chunk src k)

/-- The container image after the first `n` record writes of a run. -/
def imgRecs (b : Nat) (src : List Nat) : Nat → Image → Image
  | 0, img => img
  | n + 1, img => putRecord b src n (imgRecs b src n img)

/-- The FCB buffer after `n` loop iterations of a run that never hits the
mid-loop flush (it is reached for all `n` by composing the per-iteration
update maps; it equals the live buffer only while no flush has occurred). -/
def bufAfter (nm ex : Nat → Nat) (b : Nat) : Nat → Nat → Nat
  | 0 => init_FCB_buf nm ex
  | n + 1 => fcbUpd (b : Int) (n / 128) (n + 1) (bufAfter nm ex b n)

/-- Number of records covered by directory entry `i` when reading a file
back.  Modelled from the spec and the source's FCB comments: in this
2048-byte-block geometry one FCB spans two logical 16K extents, the
extent-index byte (offset 12) counts 16K units, and the record-count byte
(offset 15) counts records of the current extent with 0x80 meaning full. -/
def entryNumRecs (img : Image) (i : Nat) : Nat :=
  128 * (entryByte img i 12 % 2) +
    (if entryByte img i 15 = 0x80 then 128 else entryByte img i 15)

/-- Record numbers referenced by directory entry `i`, in file order: record
`j` of the entry lives in allocation-map block `j / 16` at in-block index
`j % 16`.  Modelled from the spec's entry-chain readback. -/
def entryRecords (img : Image) (i : Nat) : List Nat :=
  (List.range (entryNumRecs img i)).map fun j =>
    16 * entryByte img i (16 + j / 16) + j % 16

/-- The live directory entries matching the encoded name, in slot order. -/
def chainEntries (img : Image) (nm ex : Nat → Nat) : List Nat :=
  (List.range num_of_FCBs).filter fun i =>
    (entryByte img i 0 == 0) && is_name_ext img nm ex i

/-- All record numbers referenced by the matching entry chain, in order. -/
def chainRecords (img : Image) (nm ex : Nat → Nat) : List Nat :=
  (chainEntries img nm ex).flatMap (entryRecords img)

/-- The 128 bytes of record number `r` as stored in the container. -/
def readRecord (img : Image) (r : Nat) : List Nat :=
  (List.range 128).map fun j =>
    readByte img (convert_addr (head_addr_of_record r) + j)

/-- Reading back, in order, every record referenced by the entry chain of
the encoded name. -/
def chainReadback (img : Image) (nm ex : Nat → Nat) : List Nat :=
  (chainRecords img nm ex).flatMap (readRecord img)

/-- Modelled from the spec (DirectoryScanner contract): `lastUsedBlock` as
the specification words it - the maximum allocation-map byte value, as an
unsigned byte 0-255, over all live slots, initialised to 1.  Used to compare
the specified scanner against `same_name_check`. -/
def lastUsedBlock_spec (img : Image) : Nat :=
  (List.range num_of_FCBs).foldl
    (fun m i =>
      if entryByte img i 0 = 0 then
        (List.range' 16 16).foldl (fun m2 j => max m2 (entryByte img i j)) m
      else m)
    1

/-- A container whose filesystem area is entirely dead directory slots and
untouched data: every byte is 0xE5. -/
def deadImg : Image := fun _ => 0xE5

/-- The host filename A.B as a byte list. -/
def fnAB : List Nat := [65, 46, 66]

/-- Encoded name for A.B. -/
def nmA : Nat → Nat := encName [65]

/-- Encoded suffix for A.B. -/
def exB : Nat → Nat := encExt [66]

/-- A directory with exactly one live entry (slot 0) whose allocation map
holds the single block number 0x80 = 128: status byte 0, name bytes 0x41,
map byte 16 holds 128, all other map bytes 0, every other slot dead. -/
def imgHighBlock : Image := fun off =>
  if off < convert_addr (head_addr_of_FCB 0) then 0xE5
  else if off < convert_addr (head_addr_of_FCB 0) + 12 then
    (if off = convert_addr (head_addr_of_FCB 0) then 0 else 0x41)
  else if off < convert_addr (head_addr_of_FCB 0) + 16 then 0
  else if off = convert_addr (head_addr_of_FCB 0) + 16 then 128
  else if off < convert_addr (head_addr_of_FCB 0) + 32 then 0
  else 0xE5

/-- Container-format constant: the 43 16-byte rows of .d88 preamble. -/
def PREAMBLE_SIZE : Nat := 43 * 16

/-- Container-format constant: the per-sector metadata header size. -/
def HEADER_SIZE : Nat := 16

/-- Logical sector size of the modelled geometry. -/
def SECTOR_SIZE : Nat := 256

/-- A directory whose slot 0 is a live entry for the encoded name A.B
(status 0, name bytes 0x41 0x20..., suffix 0x42 0x20 0x20), all other
slots dead. -/
def imgConflict : Image := fun off =>
  if off = convert_addr (head_addr_of_FCB 0) then 0
  else if off = convert_addr (head_addr_of_FCB 0) + 1 then 65
  else if off = convert_addr (head_addr_of_FCB 0) + 9 then 66
  else if convert_addr (head_addr_of_FCB 0) + 1 < off ∧
      off < convert_addr (head_addr_of_FCB 0) + 12 then 32
  else 0xE5

/-- A 16385-byte source file (one byte past one extent's capacity). -/
def srcC1 : List Nat := List.replicate 16385 7

/-- A 16384-byte source file (exactly 128 records). -/
def srcC6 : List Nat := List.replicate 16384 9

/-- A 32769-byte source file (257 records, one byte past 256 records). -/
def srcC5 : List Nat := List.replicate 32769 7

/-- A 32768-byte source file (exactly 256 records). -/
def srcC9 : List Nat := List.replicate 32768 5

/-- A 200-byte source file (not a multiple of 128). -/
def srcRt : List Nat := List.replicate 200 7

theorem head_addr_of_FCB_eq (i : Nat) : head_addr_of_FCB i = 16384 + 32 * i := by
  simp [head_addr_of_FCB, head_addr_of_data_block, BPS, SPT, DATA_BLOCK_SIZE]

theorem head_addr_of_record_eq (r : Nat) : head_addr_of_record r = 16384 + 128 * r := by
  have h := Nat.div_add_mod r 16
  simp only [head_addr_of_record, head_addr_of_data_block, BPS, SPT, DATA_BLOCK_SIZE, RPD]
  omega

/-- The translation never shrinks gaps: a logical gap of `k` bytes maps to a
container gap of at least `k` bytes. -/
theorem convert_addr_add_le {x k y : Nat} (h : x + k ≤ y) :
    convert_addr x + k ≤ convert_addr y := by
  have hd : x / 256 ≤ y / 256 := Nat.div_le_div_right (by omega)
  simp only [convert_addr]
  omega

theorem writeBytes_lt {l : List Nat} {a o : Nat} (img : Image) (h : o < a) :
    writeBytes img a l o = img o := by
  induction l generalizing img a with
  | nil => rfl
  | cons v vs ih =>
    rw [writeBytes, ih _ (by omega), Function.update_apply, if_neg (by omega)]

theorem writeBytes_ge {l : List Nat} {a o : Nat} (img : Image) (h : a + l.length ≤ o) :
    writeBytes img a l o = img o := by
  induction l generalizing img a with
  | nil => rfl
  | cons v vs ih =>
    rw [writeBytes, ih _ (by simp at h; omega), Function.update_apply,
      if_neg (by simp at h; omega)]

theorem writeBytes_get {l : List Nat} {a j : Nat} (img : Image) (h : j < l.length) :
    writeBytes img a l (a + j) = l.getD j 0 % 256 := by
  induction l generalizing img a j with
  | nil => simp at h
  | cons v vs ih =>
    match j with
    | 0 => rw [writeBytes, writeBytes_lt _ (by omega)]; simp
    | j + 1 =>
      rw [writeBytes]
      have : a + (j + 1) = (a + 1) + j := by omega
      rw [this, ih _ (by simpa using h)]
      rfl

theorem is_name_ext_iff (img : Image) (nm ex : Nat → Nat) (i : Nat) :
    is_name_ext img nm ex i = true ↔
      ((∀ j, j < 8 → entryByte img i (1 + j) = nm j) ∧
       (∀ j, j < 3 → entryByte img i (9 + j) = ex j)) := by
  simp [is_name_ext, List.all_eq_true, List.mem_range]

theorem foldl_inv {α β : Type} (P : β → Prop) (f : β → α → β) (l : List α)
    (h : ∀ b a, a ∈ l → P b → P (f b a)) :
    ∀ b, P b → P (List.foldl f b l) := by
  induction l with
  | nil => intro b hb; exact hb
  | cons x xs ih =>
    intro b hb
    exact ih (fun b a ha hb => h b a (List.mem_cons_of_mem _ ha) hb) _
      (h b x (List.mem_cons_self _ _) hb)

theorem charVal_le (x : Nat) : charVal x ≤ 127 := by
  have : x % 256 < 256 := Nat.mod_lt _ (by omega)
  simp only [charVal]
  split <;> omega

theorem charVal_lt_128 (x : Nat) : charVal x < 128 := by
  have := charVal_le x
  omega

theorem mapMax_bounds (img : Image) (i : Nat) (m : Int) (l : List Nat)
    (h1 : 1 ≤ m) (h2 : m ≤ 127) :
    1 ≤ List.foldl (mapMaxStep img i) m l ∧ List.foldl (mapMaxStep img i) m l ≤ 127 := by
  refine foldl_inv (fun m => 1 ≤ m ∧ m ≤ 127) _ l ?_ m ⟨h1, h2⟩
  intro b a _ hb
  simp only [mapMaxStep]
  split
  · exact ⟨by omega, by have := charVal_le (entryByte img i a); omega⟩
  · exact hb

theorem scan_llbn_bounds (img : Image) (nm ex : Nat → Nat) :
    1 ≤ (same_name_check img nm ex).last_living_block_num ∧
      (same_name_check img nm ex).last_living_block_num ≤ 127 := by
  refine foldl_inv
    (fun st : ScanSt => 1 ≤ st.last_living_block_num ∧ st.last_living_block_num ≤ 127)
    _ _ ?_ _ ⟨by norm_num, by norm_num⟩
  intro st i _ hst
  simp only [scanStep]
  split
  · exact mapMax_bounds img i _ _ hst.1 hst.2
  · exact hst

theorem scan_llfn_bounds (img : Image) (nm ex : Nat → Nat) :
    -1 ≤ (same_name_check img nm ex).last_living_FCB_num ∧
      (same_name_check img nm ex).last_living_FCB_num < 128 := by
  refine foldl_inv
    (fun st : ScanSt => -1 ≤ st.last_living_FCB_num ∧ st.last_living_FCB_num < 128)
    _ _ ?_ _ ⟨by norm_num, by norm_num⟩
  intro st i hi hst
  simp only [scanStep]
  split
  · have : i < 128 := by
      simpa [num_of_FCBs, DATA_BLOCK_SIZE, List.mem_range] using hi
    constructor <;> simp <;> omega
  · exact hst

theorem scanStep_r_mono (img : Image) (nm ex : Nat → Nat) (st : ScanSt) (i : Nat)
    (h : st.r = true) : (scanStep img nm ex st i).r = true := by
  simp only [scanStep]
  split
  · simp [h]
  · exact h

/-- If some live slot matches the encoded name, the scan reports a
duplicate. -/
theorem scan_r_of_match (img : Image) (nm ex : Nat → Nat) (i : Nat)
    (hi : i < 128) (hlive : entryByte img i 0 = 0)
    (hmatch : is_name_ext img nm ex i = true) :
    (same_name_check img nm ex).r = true := by
  have hn : num_of_FCBs = 128 := by norm_num [num_of_FCBs, DATA_BLOCK_SIZE]
  have hsplit : List.range 128 = List.range' 0 i ++ i :: List.range' (i + 1) (127 - i) := by
    have hc : i :: List.range' (i + 1) (127 - i) = List.range' i (128 - i) := by
      have h1 : 128 - i = (127 - i) + 1 := by omega
      rw [h1, List.range'_succ]
    have h2 : List.range' 0 i 1 ++ List.range' (0 + 1 * i) (128 - i) 1
        = List.range' 0 ((128 - i) + i) 1 := List.range'_append 0 i (128 - i) 1
    rw [List.range_eq_range', hc]
    have h3 : (0 : Nat) + 1 * i = i := by omega
    have h4 : (128 - i) + i = 128 := by omega
    rw [h3, h4] at h2
    exact h2.symm
  rw [same_name_check, hn, hsplit, List.foldl_append]
  simp only [List.foldl_cons]
  apply foldl_inv (fun st : ScanSt => st.r = true) _ _
    (fun st a _ h => scanStep_r_mono img nm ex st a h)
  simp [scanStep, hlive, hmatch]

theorem int_emod_toNat (x : Nat) : (((x : Int)) % 256).toNat = x % 256 := by
  omega

theorem fcbUpd_low (b : Int) (used wr : Nat) (f : Nat → Nat) (p : Nat)
    (h : p < 12 ∨ p = 13 ∨ p = 14) : fcbUpd b used wr f p = f p := by
  have hoff : (16 + (wr / 16 + (if wr % 16 ≠ 0 then 1 else 0)) - 1) % 16 < 16 :=
    Nat.mod_lt _ (by omega)
  simp only [fcbUpd, Function.update_apply]
  rw [if_neg (by omega), if_neg (by omega), if_neg (by omega)]

theorem fcbUpd_12 (b : Int) (used wr : Nat) (f : Nat → Nat) :
    fcbUpd b used wr f 12 = used % 256 := by
  have hoff : (16 + (wr / 16 + (if wr % 16 ≠ 0 then 1 else 0)) - 1) % 16 < 16 :=
    Nat.mod_lt _ (by omega)
  simp only [fcbUpd, Function.update_apply]
  rw [if_neg (by omega), if_neg (by omega)]
  simp

theorem fcbUpd_15 (b : Int) (used wr : Nat) (f : Nat → Nat) :
    fcbUpd b used wr f 15 = (if wr % 128 ≠ 0 then wr % 128 else 0x80) := by
  have hoff : (16 + (wr / 16 + (if wr % 16 ≠ 0 then 1 else 0)) - 1) % 16 < 16 :=
    Nat.mod_lt _ (by omega)
  simp only [fcbUpd, Function.update_apply]
  rw [if_neg (by omega)]
  simp

theorem fcbUpd_map (b used wr : Nat) (f : Nat → Nat) (i : Nat) (hi : i < 16)
    (hwr : 1 ≤ wr) (hwr2 : wr ≤ 256) :
    fcbUpd (b : Int) used wr f (16 + i) =
      if i = (wr + 15) / 16 - 1 then (b + (wr + 15) / 16) % 256 else f (16 + i) := by
  have hwb : wr / 16 + (if wr % 16 ≠ 0 then 1 else 0) = (wr + 15) / 16 := by
    by_cases h : wr % 16 = 0 <;> simp [h] <;> omega
  have hwb1 : 1 ≤ (wr + 15) / 16 := by omega
  have hwb2 : (wr + 15) / 16 ≤ 16 := by omega
  have hoff : (16 + (wr / 16 + (if wr % 16 ≠ 0 then 1 else 0)) - 1) % 16
      = (wr + 15) / 16 - 1 := by
    rw [hwb]
    omega
  simp only [fcbUpd, Function.update_apply, hoff, hwb]
  by_cases h : i = (wr + 15) / 16 - 1
  · rw [if_pos (by omega), if_pos h]
    have : ((b : Int) + (((wr + 15) / 16 : Nat) : Int)) % 256
        = (((b + (wr + 15) / 16 : Nat) : Int)) % 256 := by
      push_cast
      ring_nf
    rw [this, int_emod_toNat]
  · rw [if_neg (by omega), if_neg (by omega), if_neg (by omega), if_neg h]

theorem bufAfter_low (nm ex : Nat → Nat) (b : Nat) (n p : Nat)
    (h : p < 12 ∨ p = 13 ∨ p = 14) :
    bufAfter nm ex b n p = init_FCB_buf nm ex p := by
  induction n with
  | zero => rfl
  | succ n ih => rw [bufAfter, fcbUpd_low _ _ _ _ _ h, ih]

theorem bufAfter_12 (nm ex : Nat → Nat) (b : Nat) (n : Nat) (hn : 1 ≤ n) (hn2 : n ≤ 256) :
    bufAfter nm ex b n 12 = (n - 1) / 128 := by
  match n, hn with
  | m + 1, _ =>
    rw [bufAfter, fcbUpd_12]
    omega

theorem bufAfter_15 (nm ex : Nat → Nat) (b : Nat) (n : Nat) (hn : 1 ≤ n) :
    bufAfter nm ex b n 15 = (if n % 128 ≠ 0 then n % 128 else 0x80) := by
  match n, hn with
  | m + 1, _ => rw [bufAfter, fcbUpd_15]

theorem bufAfter_map (nm ex : Nat → Nat) (b : Nat) (n i : Nat)
    (hn : n ≤ 256) (hi : i < 16) :
    bufAfter nm ex b n (16 + i) =
      if i < (n + 15) / 16 then (b + 1 + i) % 256 else 0 := by
  induction n with
  | zero =>
    rw [if_neg (by omega)]
    simp only [bufAfter, init_FCB_buf]
    rw [if_neg (by omega), if_neg (by omega), if_neg (by omega)]
  | succ n ih =>
    rw [bufAfter, fcbUpd_map _ _ _ _ _ hi (by omega) (by omega)]
    by_cases h : i = (n + 1 + 15) / 16 - 1
    · rw [if_pos h, if_pos (by omega)]
      have : b + (n + 1 + 15) / 16 = b + 1 + i := by omega
      rw [this]
    · rw [if_neg h, ih (by omega)]
      have hc : (n + 15) / 16 ≤ (n + 1 + 15) / 16 := by omega
      have hc2 : (n + 1 + 15) / 16 ≤ (n + 15) / 16 + 1 := by omega
      by_cases h2 : i < (n + 15) / 16
      · rw [if_pos h2, if_pos (by omega)]
      · rw [if_neg h2, if_neg (by omega)]

theorem chunk_length (src : List Nat) (k : Nat) : (chunk src k).length = 128 := by
  simp [chunk]

theorem chunk_getD (src : List Nat) (k j : Nat) (hj : j < 128) :
    (chunk src k).getD j 0 =
      if 128 * k + j < src.length then src.getD (128 * k + j) 0 % 256 else 0x1A := by
  rw [List.getD_eq_getElem _ _ (by rw [chunk_length]; exact hj)]
  simp only [chunk]
  rw [List.getElem_map, List.getElem_range]

theorem chunk_getD_lt (src : List Nat) (k j : Nat) (hj : j < 128) :
    (chunk src k).getD j 0 < 256 := by
  rw [chunk_getD src k j hj]
  split
  · exact Nat.lt_of_lt_of_le (Nat.mod_lt _ (by omega)) (by omega)
  · omega

theorem convert_addr_mono {x y : Nat} (h : x ≤ y) : convert_addr x ≤ convert_addr y := by
  have := convert_addr_add_le (x := x) (k := 0) (y := y) (by omega)
  omega

theorem imgRecs_low (b : Nat) (src : List Nat) (n : Nat) (img : Image) (o : Nat)
    (ho : o < convert_addr (16384 + 2048 * (b + 1))) :
    imgRecs b src n img o = img o := by
  induction n with
  | zero => rfl
  | succ n ih =>
    rw [imgRecs, putRecord, writeBytes_lt _ ?hlt, ih]
    case hlt =>
      refine Nat.lt_of_lt_of_le ho (convert_addr_mono ?_)
      rw [head_addr_of_record_eq]
      omega

theorem imgRecs_get (b : Nat) (src : List Nat) (n : Nat) (img : Image) (k j : Nat)
    (hk : k < n) (hj : j < 128) :
    imgRecs b src n img (convert_addr (head_addr_of_record (16 * (b + 1) + k)) + j)
      = (chunk src k).getD j 0 := by
  revert hk
  induction n with
  | zero => omega
  | succ n ih =>
    intro hk
    rw [imgRecs, putRecord]
    by_cases h : k = n
    · subst h
      rw [writeBytes_get _ (by rw [chunk_length]; exact hj)]
      exact Nat.mod_eq_of_lt (chunk_getD_lt src k j hj)
    · rw [writeBytes_lt _ ?hlt]
      · exact ih (by omega)
      case hlt =>
        have hle : head_addr_of_record (16 * (b + 1) + k) + 128
            ≤ head_addr_of_record (16 * (b + 1) + n) := by
          rw [head_addr_of_record_eq, head_addr_of_record_eq]
          omega
        have := convert_addr_add_le hle
        omega

theorem saveFCB_get (img : Image) (f : Nat → Nat) (s j : Nat) (hj : j < 32) :
    saveFCBimg img f s (convert_addr (head_addr_of_FCB s) + j) = f j % 256 := by
  rw [saveFCBimg, writeBytes_get _ (by simp; omega)]
  congr 1
  rw [List.getD_eq_getElem _ _ (by simp; omega), List.getElem_map, List.getElem_range]

theorem saveFCB_other (img : Image) (f : Nat → Nat) (s o : Nat)
    (h : o < convert_addr (head_addr_of_FCB s) ∨ convert_addr (head_addr_of_FCB s) + 32 ≤ o) :
    saveFCBimg img f s o = img o := by
  rcases h with h | h
  · exact writeBytes_lt _ h
  · exact writeBytes_ge _ (by simp only [List.length_map, List.length_range]; omega)

theorem writeLoop_append (nm ex : Nat → Nat) (llfn llbn : Int) (l1 l2 : List (List Nat))
    (st : WSt) :
    writeLoop nm ex llfn llbn (l1 ++ l2) st =
      match writeLoop nm ex llfn llbn l1 st with
      | .ok st' => writeLoop nm ex llfn llbn l2 st'
      | .nocap st' => .nocap st' := by
  induction l1 generalizing st with
  | nil => rfl
  | cons c cs ih =>
    rw [List.cons_append, writeLoop, writeLoop]
    split
    · rfl
    · exact ih _

theorem loopBody_step (nm ex : Nat → Nat) (e b : Nat) (src : List Nat) (img : Image) (j : Nat)
    (hj : j + 1 ≠ 256) :
    loopBody nm ex ((e : Int) - 1) (b : Int) (chunk src j)
        ⟨imgRecs b src j img, bufAfter nm ex b j, j / 128, j⟩
      = ⟨imgRecs b src (j + 1) img, bufAfter nm ex b (j + 1), (j + 1) / 128, j + 1⟩ := by
  simp only [loopBody]
  rw [if_neg (by simp only [BPS]; omega)]
  have haddr : ((16 * ((b : Int) + 1) + ((j : Nat) : Int)).toNat) = 16 * (b + 1) + j := by
    omega
  simp only [WSt.mk.injEq]
  refine ⟨?_, rfl, ?_, trivial⟩
  · rw [haddr]
    rfl
  · by_cases h : (j + 1) % 128 = 0
    · rw [if_pos h]
      omega
    · rw [if_neg h]
      omega

theorem loop_run_aux (nm ex : Nat → Nat) (e b : Nat) (src : List Nat) (img : Image)
    (hb2 : b ≤ 127) :
    ∀ m j, j + m ≤ 255 → (∀ i, i < j + m → e + i / 128 ≤ 127) →
      writeLoop nm ex ((e : Int) - 1) (b : Int) ((List.range' j m).map (chunk src))
        ⟨imgRecs b src j img, bufAfter nm ex b j, j / 128, j⟩
      = .ok ⟨imgRecs b src (j + m) img, bufAfter nm ex b (j + m), (j + m) / 128, j + m⟩ := by
  intro m
  induction m with
  | zero =>
    intro j h hc
    simp [writeLoop]
  | succ m ih =>
    intro j h hc
    rw [List.range'_succ, List.map_cons, writeLoop, if_neg ?hcap]
    case hcap =>
      have h1 := hc j (by omega)
      simp only [num_of_FCBs, num_of_data_blocks, RPD, BPS, SPT, TRACKS, DATA_BLOCK_SIZE]
      push_cast
      omega
    rw [loopBody_step nm ex e b src img j (by omega)]
    have hrec := ih (j + 1) (by omega) (fun i hi => hc i (by omega))
    have heq : j + 1 + m = j + (m + 1) := by omega
    rw [heq] at hrec
    exact hrec

theorem loop_run (nm ex : Nat → Nat) (e b : Nat) (src : List Nat) (img : Image) (n : Nat)
    (hb2 : b ≤ 127) (hn : n ≤ 255) (hcap : ∀ i, i < n → e + i / 128 ≤ 127) :
    writeLoop nm ex ((e : Int) - 1) (b : Int) ((List.range n).map (chunk src))
        ⟨img, init_FCB_buf nm ex, 0, 0⟩
      = .ok ⟨imgRecs b src n img, bufAfter nm ex b n, n / 128, n⟩ := by
  have := loop_run_aux nm ex e b src img hb2 n 0 (by omega) (by simpa using hcap)
  simpa [List.range_eq_range'] using this

theorem write_in_eq (img : Image) (fn src : List Nat) (nm ex : Nat → Nat) (e b n : Nat)
    (hsep : separate_name fn = .ok ⟨nm, ex⟩)
    (hscan : same_name_check img nm ex = ⟨false, (e : Int) - 1, (b : Int)⟩)
    (hb2 : b ≤ 127)
    (hn : numChunks src.length = n) (hn2 : n ≤ 255)
    (hcap : ∀ i, i < n → e + i / 128 ≤ 127) :
    write_in img fn src =
      (.Success,
        saveFCBimg (imgRecs b src n img) (bufAfter nm ex b n) (e + n / 128 % 2)) := by
  have hloop := loop_run nm ex e b src img n hb2 hn2 hcap
  have hslot : (((e : Int) - 1) + 1 + (((n / 128 % 2 : Nat)) : Int)).toNat
      = e + n / 128 % 2 := by omega
  rw [write_in, hsep]
  simp only
  rw [hscan]
  simp only [chunks, hn]
  rw [hloop]
  simp only
  rw [hslot]
  simp

theorem loopBody_nat (nm ex : Nat → Nat) (e b : Nat) (c : List Nat) (st : WSt) :
    loopBody nm ex ((e : Int) - 1) (b : Int) c st =
      (if st.written_records + 1 = 256 then
        ⟨saveFCBimg
            (writeBytes st.img
              (convert_addr (head_addr_of_record (16 * (b + 1) + st.written_records))) c)
            (fcbUpd (b : Int) st.used_FCBs (st.written_records + 1) st.fcb)
            (e + (if (st.written_records + 1) % 128 = 0 then st.used_FCBs + 1
                  else st.used_FCBs) % 2),
          init_FCB_buf nm ex,
          (if (st.written_records + 1) % 128 = 0 then st.used_FCBs + 1 else st.used_FCBs),
          st.written_records + 1⟩
      else
        ⟨writeBytes st.img
            (convert_addr (head_addr_of_record (16 * (b + 1) + st.written_records))) c,
          fcbUpd (b : Int) st.used_FCBs (st.written_records + 1) st.fcb,
          (if (st.written_records + 1) % 128 = 0 then st.used_FCBs + 1 else st.used_FCBs),
          st.written_records + 1⟩) := by
  simp only [loopBody, BPS]
  have h1 : ((16 * ((b : Int) + 1) + ((st.written_records : Nat) : Int)).toNat)
      = 16 * (b + 1) + st.written_records := by omega
  rw [h1]
  generalize (if (st.written_records + 1) % 128 = 0 then st.used_FCBs + 1
    else st.used_FCBs) = u
  have h2 : (((e : Int) - 1) + 1 + (((u % 2 : Nat)) : Int)).toNat = e + u % 2 := by omega
  rw [h2]

theorem loop_run_256 (nm ex : Nat → Nat) (e b : Nat) (src : List Nat) (img : Image)
    (hb2 : b ≤ 127) (he : e ≤ 126) :
    writeLoop nm ex ((e : Int) - 1) (b : Int) ((List.range 256).map (chunk src))
        ⟨img, init_FCB_buf nm ex, 0, 0⟩
      = .ok ⟨saveFCBimg (imgRecs b src 256 img) (bufAfter nm ex b 256) e,
          init_FCB_buf nm ex, 2, 256⟩ := by
  have hsplit : List.range 256 = List.range' 0 255 ++ [255] := by
    have h := List.range'_append 0 255 1 1
    rw [List.range_eq_range']
    simpa using h.symm
  rw [hsplit, List.map_append, writeLoop_append]
  have h255 : writeLoop nm ex ((e : Int) - 1) (b : Int) ((List.range' 0 255).map (chunk src))
      ⟨img, init_FCB_buf nm ex, 0, 0⟩
      = .ok ⟨imgRecs b src 255 img, bufAfter nm ex b 255, 255 / 128, 255⟩ := by
    have hc : ∀ i, i < 0 + 255 → e + i / 128 ≤ 127 := by
      intro i hi
      have hd : i / 128 ≤ 1 := by omega
      omega
    have h := loop_run_aux nm ex e b src img hb2 255 0 (by omega) hc
    simpa using h
  rw [h255]
  simp only [List.map_cons, List.map_nil]
  rw [writeLoop, if_neg ?hcap]
  case hcap =>
    simp only [num_of_FCBs, num_of_data_blocks, RPD, BPS, SPT, TRACKS, DATA_BLOCK_SIZE]
    push_cast
    omega
  rw [loopBody_nat]
  norm_num
  rw [writeLoop]
  have hbuf : fcbUpd (b : Int) (255 / 128) 256 (bufAfter nm ex b 255) = bufAfter nm ex b 256 := by
    rfl
  rw [hbuf]
  rfl

theorem loop_run_257 (nm ex : Nat → Nat) (e b : Nat) (src : List Nat) (img : Image)
    (hb2 : b ≤ 127) (he : e ≤ 126) :
    writeLoop nm ex ((e : Int) - 1) (b : Int) ((List.range 257).map (chunk src))
        ⟨img, init_FCB_buf nm ex, 0, 0⟩
      = .ok ⟨writeBytes (saveFCBimg (imgRecs b src 256 img) (bufAfter nm ex b 256) e)
            (convert_addr (head_addr_of_record (16 * (b + 1) + 256))) (chunk src 256),
          fcbUpd (b : Int) 2 257 (init_FCB_buf nm ex), 2, 257⟩ := by
  have hsplit : List.range 257 = List.range 256 ++ [256] := by
    have h := List.range_succ 256
    simpa using h
  rw [hsplit, List.map_append, writeLoop_append, loop_run_256 nm ex e b src img hb2 he]
  simp only [List.map_cons, List.map_nil]
  rw [writeLoop, if_neg ?hcap]
  case hcap =>
    simp only [num_of_FCBs, num_of_data_blocks, RPD, BPS, SPT, TRACKS, DATA_BLOCK_SIZE]
    push_cast
    omega
  rw [loopBody_nat]
  norm_num
  rw [writeLoop]

theorem write_in_eq_256 (img : Image) (fn src : List Nat) (nm ex : Nat → Nat) (e b : Nat)
    (hsep : separate_name fn = .ok ⟨nm, ex⟩)
    (hscan : same_name_check img nm ex = ⟨false, (e : Int) - 1, (b : Int)⟩)
    (hb2 : b ≤ 127) (he : e ≤ 126)
    (hn : numChunks src.length = 256) :
    write_in img fn src =
      (.Success,
        saveFCBimg (saveFCBimg (imgRecs b src 256 img) (bufAfter nm ex b 256) e)
          (init_FCB_buf nm ex) e) := by
  have hloop := loop_run_256 nm ex e b src img hb2 he
  have hslot : (((e : Int) - 1) + 1 + (((2 % 2 : Nat)) : Int)).toNat = e := by omega
  rw [write_in, hsep]
  simp only
  rw [hscan]
  simp only [chunks, hn]
  rw [hloop]
  simp only
  rw [hslot]
  simp

theorem write_in_eq_257 (img : Image) (fn src : List Nat) (nm ex : Nat → Nat) (e b : Nat)
    (hsep : separate_name fn = .ok ⟨nm, ex⟩)
    (hscan : same_name_check img nm ex = ⟨false, (e : Int) - 1, (b : Int)⟩)
    (hb2 : b ≤ 127) (he : e ≤ 126)
    (hn : numChunks src.length = 257) :
    write_in img fn src =
      (.Success,
        saveFCBimg
          (writeBytes (saveFCBimg (imgRecs b src 256 img) (bufAfter nm ex b 256) e)
            (convert_addr (head_addr_of_record (16 * (b + 1) + 256))) (chunk src 256))
          (fcbUpd (b : Int) 2 257 (init_FCB_buf nm ex)) e) := by
  have hloop := loop_run_257 nm ex e b src img hb2 he
  have hslot : (((e : Int) - 1) + 1 + (((2 % 2 : Nat)) : Int)).toNat = e := by omega
  rw [write_in, hsep]
  simp only
  rw [hscan]
  simp only [chunks, hn]
  rw [hloop]
  simp only
  rw [hslot]
  simp

theorem post_entry_at (img : Image) (b : Nat) (src : List Nat) (n : Nat) (F : Nat → Nat)
    (s j : Nat) (hj : j < 32) :
    entryByte (saveFCBimg (imgRecs b src n img) F s) s j = F j % 256 := by
  rw [entryByte, readByte, saveFCB_get _ _ _ _ hj]
  omega

theorem fcb_area_sep {s i j : Nat} (hs : s < 128) (hi : i < 128) (hij : i ≠ s) (hj : j < 32) :
    convert_addr (head_addr_of_FCB i) + j < convert_addr (head_addr_of_FCB s) ∨
      convert_addr (head_addr_of_FCB s) + 32 ≤ convert_addr (head_addr_of_FCB i) + j := by
  rcases Nat.lt_or_ge i s with h | h
  · left
    have hle : head_addr_of_FCB i + (j + 1) ≤ head_addr_of_FCB s := by
      rw [head_addr_of_FCB_eq, head_addr_of_FCB_eq]
      omega
    have := convert_addr_add_le hle
    omega
  · right
    have hle : head_addr_of_FCB s + 32 ≤ head_addr_of_FCB i := by
      rw [head_addr_of_FCB_eq, head_addr_of_FCB_eq]
      omega
    have := convert_addr_add_le hle
    omega

theorem post_entry_other (img : Image) (b : Nat) (src : List Nat) (n : Nat) (F : Nat → Nat)
    (s i j : Nat) (hs : s < 128) (hi : i < 128) (hij : i ≠ s) (hj : j < 32) (hb1 : 1 ≤ b) :
    entryByte (saveFCBimg (imgRecs b src n img) F s) i j = entryByte img i j := by
  rw [entryByte, readByte, saveFCB_other _ _ _ _ (fcb_area_sep hs hi hij hj),
    imgRecs_low _ _ _ _ _ ?hlow, entryByte, readByte]
  case hlow =>
    have hle : head_addr_of_FCB i + (j + 1) ≤ 16384 + 2048 * (b + 1) := by
      rw [head_addr_of_FCB_eq]
      omega
    have := convert_addr_add_le hle
    omega

theorem rec_above_fcb {s : Nat} (b k j : Nat) (hs : s < 128) (hb1 : 1 ≤ b) :
    convert_addr (head_addr_of_FCB s) + 32
      ≤ convert_addr (head_addr_of_record (16 * (b + 1) + k)) + j := by
  have hle : head_addr_of_FCB s + 32 ≤ head_addr_of_record (16 * (b + 1) + k) := by
    rw [head_addr_of_FCB_eq, head_addr_of_record_eq]
    omega
  have := convert_addr_add_le hle
  omega

theorem post_record_at (img : Image) (b : Nat) (src : List Nat) (n : Nat) (F : Nat → Nat)
    (s k j : Nat) (hs : s < 128) (hk : k < n) (hj : j < 128) (hb1 : 1 ≤ b) :
    readByte (saveFCBimg (imgRecs b src n img) F s)
        (convert_addr (head_addr_of_record (16 * (b + 1) + k)) + j)
      = (chunk src k).getD j 0 := by
  rw [readByte, saveFCB_other _ _ _ _ (Or.inr (rec_above_fcb b k j hs hb1)),
    imgRecs_get _ _ _ _ _ _ hk hj]
  exact Nat.mod_eq_of_lt (chunk_getD_lt _ _ _ hj)

theorem all_congr_mem {l : List Nat} {p q : Nat → Bool} (h : ∀ a ∈ l, p a = q a) :
    l.all p = l.all q := by
  induction l with
  | nil => rfl
  | cons x xs ih =>
    simp only [List.all_cons]
    rw [h x (by simp), ih (fun a ha => h a (by simp [ha]))]

theorem is_name_ext_congr (img1 img0 : Image) (nm ex : Nat → Nat) (i : Nat)
    (h : ∀ j, 1 ≤ j → j < 12 → entryByte img1 i j = entryByte img0 i j) :
    is_name_ext img1 nm ex i = is_name_ext img0 nm ex i := by
  simp only [is_name_ext]
  have h8 : (List.range 8).all (fun j => entryByte img1 i (1 + j) == nm j)
      = (List.range 8).all (fun j => entryByte img0 i (1 + j) == nm j) := by
    apply all_congr_mem
    intro a ha
    rw [h (1 + a) (by omega) (by simp [List.mem_range] at ha; omega)]
  have h3 : (List.range 3).all (fun j => entryByte img1 i (9 + j) == ex j)
      = (List.range 3).all (fun j => entryByte img0 i (9 + j) == ex j) := by
    apply all_congr_mem
    intro a ha
    rw [h (9 + a) (by omega) (by simp [List.mem_range] at ha; omega)]
  rw [h8, h3]

theorem filter_range_single (p : Nat → Bool) (s n : Nat) (hs : s < n) (hp : p s = true)
    (h : ∀ i, i < n → i ≠ s → p i = false) : (List.range n).filter p = [s] := by
  induction n with
  | zero => omega
  | succ n ih =>
    rw [List.range_succ, List.filter_append]
    by_cases hsn : s = n
    · subst hsn
      have h1 : (List.range s).filter p = [] := by
        rw [List.filter_eq_nil_iff]
        intro a ha
        simp only [List.mem_range] at ha
        simp [h a (by omega) (by omega)]
      simp [h1, hp]
    · have h1 := ih (by omega) (fun i hi hne => h i (by omega) hne)
      rw [h1]
      have h2 : p n = false := h n (by omega) (by omega)
      simp [h2]

theorem chainEntries_single (img img1 : Image) (nm ex : Nat → Nat) (s : Nat)
    (hs : s < 128)
    (hr : (same_name_check img nm ex).r = false)
    (hother : ∀ i, i < 128 → i ≠ s → ∀ j, j < 32 → entryByte img1 i j = entryByte img i j)
    (hlive : entryByte img1 s 0 = 0)
    (hmatch : is_name_ext img1 nm ex s = true) :
    chainEntries img1 nm ex = [s] := by
  rw [chainEntries]
  have hn : num_of_FCBs = 128 := by norm_num [num_of_FCBs, DATA_BLOCK_SIZE]
  rw [hn]
  apply filter_range_single _ _ _ hs
  · simp [hlive, hmatch]
  · intro i hi hne
    by_cases hl : entryByte img i 0 = 0
    · by_cases hm : is_name_ext img nm ex i = true
      · exact absurd (scan_r_of_match img nm ex i hi hl hm) (by simp [hr])
      · have hc : is_name_ext img1 nm ex i = is_name_ext img nm ex i :=
          is_name_ext_congr img1 img nm ex i
            (fun j hj1 hj2 => hother i hi hne j (by omega))
        simp [hc, hm]
    · have hc : entryByte img1 i 0 = entryByte img i 0 := hother i hi hne 0 (by omega)
      simp [hc, hl]

/-- C7: for every host filename containing no extension separator '.', the
name-encoding operation fails with an explicit InvalidFilename error
(modelled from the spec, since the source's behaviour there is undefined). -/
theorem C7_no_dot_invalid_filename (fn : List Nat) (h : ¬ 46 ∈ fn) :
    separate_name fn = .error .InvalidFilename := by
  have hnone : lastDotIdx fn = none := by
    rw [lastDotIdx]
    have hf : (List.range fn.length).filter (fun i => fn.getD i 0 == 46) = [] := by
      rw [List.filter_eq_nil_iff]
      intro a ha
      simp only [List.mem_range] at ha
      simp only [beq_iff_eq]
      intro hc
      apply h
      rw [← hc, List.getD_eq_getElem _ _ ha]
      exact List.getElem_mem _
    rw [hf]
    rfl
  rw [separate_name, hnone]

/-- Witness for C7 at the dotless filename FOO. -/
theorem C7_no_dot_invalid_filename_witness :
    separate_name [70, 79, 79] = .error .InvalidFilename :=
  C7_no_dot_invalid_filename [70, 79, 79] (by decide)

/-- C8: the address translation is the pure total function
PREAMBLE_SIZE + HEADER_SIZE + logicalAddr + HEADER_SIZE * (logicalAddr / SECTOR_SIZE)
with HEADER_SIZE = 16 and SECTOR_SIZE = 256, in exact integer arithmetic. -/
theorem C8_translate_formula (logicalAddr : Nat) :
    convert_addr logicalAddr =
      PREAMBLE_SIZE + HEADER_SIZE + logicalAddr
        + HEADER_SIZE * (logicalAddr / SECTOR_SIZE) := rfl

/-- C4: whenever some live directory entry matches the encoded target name,
the write is rejected as a name conflict and the container image is returned
byte-for-byte unchanged. -/
theorem C4_name_conflict_no_mutation (img : Image) (fn src : List Nat)
    (nm ex : Nat → Nat) (i : Nat)
    (hsep : separate_name fn = .ok ⟨nm, ex⟩) (hi : i < 128)
    (hlive : entryByte img i 0 = 0) (hmatch : is_name_ext img nm ex i = true) :
    write_in img fn src = (Outcome.NameConflict, img) := by
  have hr := scan_r_of_match img nm ex i hi hlive hmatch
  rw [write_in, hsep]
  simp only
  rw [if_pos hr]

/-- Witness for C4: a directory already holding A.B rejects writing A.B and
leaves the image untouched. -/
theorem C4_name_conflict_no_mutation_witness :
    write_in imgConflict fnAB [1, 2, 3] = (Outcome.NameConflict, imgConflict) :=
  C4_name_conflict_no_mutation imgConflict fnAB [1, 2, 3] nmA exB 0 rfl (by norm_num)
    (by decide) (by decide)

/-- C3 (code bug): with the source's `char`-typed FCB buffer the
allocation-map scan compares sign-extended bytes, so a live entry using
block 0x80 = 128 leaves `last_living_block_num` at 1, while the scanner
specification (unsigned byte maximum, initialised to 1) yields 128. -/
theorem C3_signed_scan_misses_high_block :
    (same_name_check imgHighBlock nmA exB).last_living_block_num = 1 ∧
      lastUsedBlock_spec imgHighBlock = 128 := by
  constructor
  · decide
  · decide

/-- C10: writing an empty source file with a non-conflicting name performs no
record writes - every container byte outside directory slot
lastLiveEntryIndex + 1 is unchanged - yet persists that one slot with status
0, the encoded name, record-count byte 0 and an all-zero allocation map, and
reports success. -/
theorem C10_empty_file (img : Image) (fn : List Nat) (nm ex : Nat → Nat) (e b : Nat)
    (hsep : separate_name fn = .ok ⟨nm, ex⟩)
    (hscan : same_name_check img nm ex = ⟨false, (e : Int) - 1, (b : Int)⟩)
    (hb2 : b ≤ 127) (he : e ≤ 127) :
    (write_in img fn []).1 = Outcome.Success ∧
    entryByte (write_in img fn []).2 e 0 = 0 ∧
    (∀ j, j < 8 → entryByte (write_in img fn []).2 e (1 + j) = nm j % 256) ∧
    (∀ j, j < 3 → entryByte (write_in img fn []).2 e (9 + j) = ex j % 256) ∧
    entryByte (write_in img fn []).2 e 15 = 0 ∧
    (∀ i, i < 16 → entryByte (write_in img fn []).2 e (16 + i) = 0) ∧
    (∀ o, o < convert_addr (head_addr_of_FCB e) ∨
        convert_addr (head_addr_of_FCB e) + 32 ≤ o →
      (write_in img fn []).2 o = img o) := by
  have heq := write_in_eq img fn [] nm ex e b 0 hsep hscan hb2 (by rfl) (by omega)
    (by intro i hi; omega)
  have hz : (0 : Nat) / 128 % 2 = 0 := by norm_num
  rw [hz] at heq
  rw [heq]
  simp only
  refine ⟨trivial, ?_, ?_, ?_, ?_, ?_, ?_⟩
  · rw [Nat.add_zero, post_entry_at _ _ _ _ _ _ _ (by omega)]
    rfl
  · intro j hj
    rw [Nat.add_zero, post_entry_at _ _ _ _ _ _ _ (by omega)]
    show init_FCB_buf nm ex (1 + j) % 256 = nm j % 256
    rw [init_FCB_buf]
    rw [if_neg (by omega), if_pos (by omega)]
    simp
  · intro j hj
    rw [Nat.add_zero, post_entry_at _ _ _ _ _ _ _ (by omega)]
    show init_FCB_buf nm ex (9 + j) % 256 = ex j % 256
    rw [init_FCB_buf]
    rw [if_neg (by omega), if_neg (by omega), if_pos (by omega)]
    simp
  · rw [Nat.add_zero, post_entry_at _ _ _ _ _ _ _ (by omega)]
    rfl
  · intro i hi
    rw [Nat.add_zero, post_entry_at _ _ _ _ _ _ _ (by omega)]
    show init_FCB_buf nm ex (16 + i) % 256 = 0
    rw [init_FCB_buf]
    rw [if_neg (by omega), if_neg (by omega), if_neg (by omega)]
  · intro o ho
    rw [Nat.add_zero, saveFCB_other _ _ _ _ ho]
    rfl

/-- Witness for C10 on the all-dead image with name A.B. -/
theorem C10_empty_file_witness :
    (write_in deadImg fnAB []).1 = Outcome.Success ∧
    entryByte (write_in deadImg fnAB []).2 0 0 = 0 ∧
    (∀ j, j < 8 → entryByte (write_in deadImg fnAB []).2 0 (1 + j) = nmA j % 256) ∧
    (∀ j, j < 3 → entryByte (write_in deadImg fnAB []).2 0 (9 + j) = exB j % 256) ∧
    entryByte (write_in deadImg fnAB []).2 0 15 = 0 ∧
    (∀ i, i < 16 → entryByte (write_in deadImg fnAB []).2 0 (16 + i) = 0) ∧
    (∀ o, o < convert_addr (head_addr_of_FCB 0) ∨
        convert_addr (head_addr_of_FCB 0) + 32 ≤ o →
      (write_in deadImg fnAB []).2 o = deadImg o) :=
  C10_empty_file deadImg fnAB nmA exB 0 1 rfl (by decide) (by norm_num) (by norm_num)

theorem post_entry_matches (img : Image) (b : Nat) (src : List Nat) (n : Nat)
    (nm ex : Nat → Nat) (s : Nat)
    (hnm : ∀ j, j < 8 → nm j < 256) (hex : ∀ j, j < 3 → ex j < 256) :
    is_name_ext (saveFCBimg (imgRecs b src n img) (bufAfter nm ex b n) s) nm ex s = true := by
  rw [is_name_ext_iff]
  constructor
  · intro j hj
    rw [post_entry_at _ _ _ _ _ _ _ (by omega),
      bufAfter_low _ _ _ _ _ (by omega)]
    show init_FCB_buf nm ex (1 + j) % 256 = nm j
    rw [init_FCB_buf, if_neg (by omega), if_pos (by omega)]
    have h1 : 1 + j - 1 = j := by omega
    rw [h1]
    exact Nat.mod_eq_of_lt (hnm j hj)
  · intro j hj
    rw [post_entry_at _ _ _ _ _ _ _ (by omega),
      bufAfter_low _ _ _ _ _ (by omega)]
    show init_FCB_buf nm ex (9 + j) % 256 = ex j
    rw [init_FCB_buf, if_neg (by omega), if_neg (by omega), if_pos (by omega)]
    have h1 : 9 + j - 9 = j := by omega
    rw [h1]
    exact Nat.mod_eq_of_lt (hex j hj)

theorem run_entries (img : Image) (fn src : List Nat) (nm ex : Nat → Nat) (e b n : Nat)
    (hsep : separate_name fn = .ok ⟨nm, ex⟩)
    (hscan : same_name_check img nm ex = ⟨false, (e : Int) - 1, (b : Int)⟩)
    (hn : numChunks src.length = n) (hn1 : 1 ≤ n) (hn2 : n ≤ 255)
    (he : e + n / 128 % 2 ≤ 127) (hcap : ∀ i, i < n → e + i / 128 ≤ 127)
    (hnm : ∀ j, j < 8 → nm j < 256) (hex : ∀ j, j < 3 → ex j < 256) :
    (write_in img fn src).1 = Outcome.Success ∧
    entryByte (write_in img fn src).2 (e + n / 128 % 2) 0 = 0 ∧
    entryByte (write_in img fn src).2 (e + n / 128 % 2) 12 = (n - 1) / 128 ∧
    entryByte (write_in img fn src).2 (e + n / 128 % 2) 15
      = (if n % 128 ≠ 0 then n % 128 else 128) ∧
    (∀ i, i < 16 → entryByte (write_in img fn src).2 (e + n / 128 % 2) (16 + i)
      = if i < (n + 15) / 16 then b + 1 + i else 0) ∧
    (∀ i, i < 128 → i ≠ e + n / 128 % 2 → ∀ j, j < 32 →
      entryByte (write_in img fn src).2 i j = entryByte img i j) ∧
    chainEntries (write_in img fn src).2 nm ex = [e + n / 128 % 2] ∧
    (∀ k, k < n → ∀ j, j < 128 →
      readByte (write_in img fn src).2
          (convert_addr (head_addr_of_record (16 * (b + 1) + k)) + j)
        = (chunk src k).getD j 0) := by
  have hb1 : 1 ≤ b := by
    have h := (scan_llbn_bounds img nm ex).1
    rw [hscan] at h
    have h2 : (1 : Int) ≤ (b : Int) := h
    exact_mod_cast h2
  have hb2 : b ≤ 127 := by
    have h := (scan_llbn_bounds img nm ex).2
    rw [hscan] at h
    have h2 : (b : Int) ≤ 127 := h
    exact_mod_cast h2
  have heq := write_in_eq img fn src nm ex e b n hsep hscan hb2 hn hn2 hcap
  rw [heq]
  simp only
  have hstatus : entryByte
      (saveFCBimg (imgRecs b src n img) (bufAfter nm ex b n) (e + n / 128 % 2))
      (e + n / 128 % 2) 0 = 0 := by
    rw [post_entry_at _ _ _ _ _ _ _ (by omega), bufAfter_low _ _ _ _ _ (by omega)]
    rfl
  have hother : ∀ i, i < 128 → i ≠ e + n / 128 % 2 → ∀ j, j < 32 →
      entryByte (saveFCBimg (imgRecs b src n img) (bufAfter nm ex b n) (e + n / 128 % 2)) i j
        = entryByte img i j := by
    intro i hi hne j hj
    exact post_entry_other img b src n _ _ i j (by omega) hi hne hj hb1
  refine ⟨trivial, hstatus, ?_, ?_, ?_, hother, ?_, ?_⟩
  · rw [post_entry_at _ _ _ _ _ _ _ (by omega), bufAfter_12 _ _ _ _ hn1 (by omega)]
    have : (n - 1) / 128 < 256 := by omega
    omega
  · rw [post_entry_at _ _ _ _ _ _ _ (by omega), bufAfter_15 _ _ _ _ hn1]
    by_cases h : n % 128 = 0
    · rw [if_neg (show ¬n % 128 ≠ 0 from by omega)]
    · rw [if_pos h]
      have h2 : n % 128 < 128 := by omega
      omega
  · intro i hi
    rw [post_entry_at _ _ _ _ _ _ _ (by omega), bufAfter_map _ _ _ _ _ (by omega) hi]
    by_cases h : i < (n + 15) / 16
    · rw [if_pos h, if_pos h]
      have : b + 1 + i < 256 := by omega
      omega
    · rw [if_neg h, if_neg h]
  · apply chainEntries_single img _ nm ex _ (by omega) (by rw [hscan]) hother hstatus
    exact post_entry_matches img b src n nm ex _ hnm hex
  · intro k hk j hj
    exact post_record_at img b src n _ _ k j (by omega) hk hj hb1

theorem entry_at_save (X : Image) (F : Nat → Nat) (s j : Nat) (hj : j < 32) :
    entryByte (saveFCBimg X F s) s j = F j % 256 := by
  rw [entryByte, readByte, saveFCB_get _ _ _ _ hj]
  omega

theorem entry_other_save (X : Image) (F : Nat → Nat) (s i j : Nat)
    (hs : s < 128) (hi : i < 128) (hne : i ≠ s) (hj : j < 32) :
    entryByte (saveFCBimg X F s) i j = entryByte X i j := by
  rw [entryByte, readByte, saveFCB_other _ _ _ _ (fcb_area_sep hs hi hne hj),
    entryByte, readByte]

theorem nmA_lt (j : Nat) : nmA j < 256 := by
  simp only [nmA, encName, List.length_cons, List.length_nil]
  split
  · rename_i h
    have hj : j = 0 := by omega
    subst hj
    decide
  · omega

theorem exB_lt (j : Nat) : exB j < 256 := by
  simp only [exB, encExt, List.length_cons, List.length_nil]
  split
  · rename_i h
    have hj : j = 0 := by omega
    subst hj
    decide
  · omega

theorem srcC1_length : srcC1.length = 16385 := by
  rw [srcC1, List.length_replicate]

theorem srcC6_length : srcC6.length = 16384 := by
  rw [srcC6, List.length_replicate]

theorem srcC5_length : srcC5.length = 32769 := by
  rw [srcC5, List.length_replicate]

/-- C1 (amended): writing a non-conflicting 16385-byte source file yields
exactly ONE new directory entry, at slot lastLiveEntryIndex + 2, with
extent-index byte 1, record-count byte 1 and allocation-map entries 0..8
holding the 9 used block numbers; every other directory slot is unchanged.
(The claimed two entries with extent indices 0 and 1 do not occur: the
mid-loop flush fires at 256 records, not at 128.) -/
theorem C1_single_entry_16385 (img : Image) (fn src : List Nat) (nm ex : Nat → Nat)
    (e b : Nat)
    (hsep : separate_name fn = .ok ⟨nm, ex⟩)
    (hscan : same_name_check img nm ex = ⟨false, (e : Int) - 1, (b : Int)⟩)
    (hlen : src.length = 16385) (he : e ≤ 126)
    (hnm : ∀ j, j < 8 → nm j < 256) (hex : ∀ j, j < 3 → ex j < 256) :
    (write_in img fn src).1 = Outcome.Success ∧
    chainEntries (write_in img fn src).2 nm ex = [e + 1] ∧
    entryByte (write_in img fn src).2 (e + 1) 12 = 1 ∧
    entryByte (write_in img fn src).2 (e + 1) 15 = 1 ∧
    (∀ i, i < 9 → entryByte (write_in img fn src).2 (e + 1) (16 + i) = b + 1 + i) ∧
    (∀ i, 9 ≤ i → i < 16 → entryByte (write_in img fn src).2 (e + 1) (16 + i) = 0) ∧
    (∀ i, i < 128 → i ≠ e + 1 → ∀ j, j < 32 →
      entryByte (write_in img fn src).2 i j = entryByte img i j) := by
  have hn : numChunks src.length = 129 := by rw [hlen]; rfl
  have h := run_entries img fn src nm ex e b 129 hsep hscan hn (by omega) (by omega)
    (by norm_num; omega)
    (by intro i hi; omega) hnm hex
  norm_num at h
  obtain ⟨h1, h2, h3, h4, h5, h6, h7, h8⟩ := h
  refine ⟨h1, h7, h3, h4, ?_, ?_, h6⟩
  · intro i hi
    have h9 := h5 i (by omega)
    rwa [if_pos (by omega)] at h9
  · intro i hi1 hi2
    have h9 := h5 i (by omega)
    rwa [if_neg (by omega)] at h9

/-- Witness for C1's amended statement on the all-dead image. -/
theorem C1_single_entry_16385_witness :
    (write_in deadImg fnAB srcC1).1 = Outcome.Success ∧
    chainEntries (write_in deadImg fnAB srcC1).2 nmA exB = [0 + 1] ∧
    entryByte (write_in deadImg fnAB srcC1).2 (0 + 1) 12 = 1 ∧
    entryByte (write_in deadImg fnAB srcC1).2 (0 + 1) 15 = 1 ∧
    (∀ i, i < 9 → entryByte (write_in deadImg fnAB srcC1).2 (0 + 1) (16 + i) = 1 + 1 + i) ∧
    (∀ i, 9 ≤ i → i < 16 → entryByte (write_in deadImg fnAB srcC1).2 (0 + 1) (16 + i) = 0) ∧
    (∀ i, i < 128 → i ≠ 0 + 1 → ∀ j, j < 32 →
      entryByte (write_in deadImg fnAB srcC1).2 i j = entryByte deadImg i j) :=
  C1_single_entry_16385 deadImg fnAB srcC1 nmA exB 0 1 rfl (by decide)
    srcC1_length (by norm_num) (fun j _ => nmA_lt j) (fun j _ => exB_lt j)

/-- Counterexample to C1 as stated: for the concrete 16385-byte write into
an all-dead directory the final image holds exactly one matching live entry
(slot 1), not two, and that entry's extent-index byte is 1 - no extent-0
entry exists. -/
theorem C1_counterexample :
    (chainEntries (write_in deadImg fnAB srcC1).2 nmA exB).length = 1 ∧
    (chainEntries (write_in deadImg fnAB srcC1).2 nmA exB).length ≠ 2 ∧
    entryByte (write_in deadImg fnAB srcC1).2 1 12 = 1 := by
  have hn : numChunks srcC1.length = 129 := by rw [srcC1_length]; rfl
  have h := run_entries deadImg fnAB srcC1 nmA exB 0 1 129 rfl (by decide) hn (by omega)
    (by omega) (by norm_num) (by intro i hi; omega)
    (fun j _ => nmA_lt j) (fun j _ => exB_lt j)
  norm_num at h
  obtain ⟨h1, h2, h3, h4, h5, h6, h7, h8⟩ := h
  refine ⟨?_, ?_, ?_⟩
  · rw [h7]
    rfl
  · rw [h7]
    norm_num
  · exact h3

/-- C2 (amended): the entry buffer is persisted and reset only when the
cumulative record count reaches BPS = 256, not each time 128 records have
accumulated: any run of m ≤ 255 records performs no directory write (its
loop state is exactly the m record writes plus the in-memory buffer), and
on the 256th record the buffer is flushed to slot lastLiveEntryIndex + 1 +
(extentCounter mod 2) = lastLiveEntryIndex + 1 and reset to the initial
buffer. -/
theorem C2_flush_only_at_256 (nm ex : Nat → Nat) (e b : Nat) (src : List Nat)
    (img : Image) (hb2 : b ≤ 127) (he : e ≤ 126) :
    (∀ m, m ≤ 255 → (∀ i, i < m → e + i / 128 ≤ 127) →
      writeLoop nm ex ((e : Int) - 1) (b : Int) ((List.range m).map (chunk src))
          ⟨img, init_FCB_buf nm ex, 0, 0⟩
        = .ok ⟨imgRecs b src m img, bufAfter nm ex b m, m / 128, m⟩) ∧
    writeLoop nm ex ((e : Int) - 1) (b : Int) ((List.range 256).map (chunk src))
        ⟨img, init_FCB_buf nm ex, 0, 0⟩
      = .ok ⟨saveFCBimg (imgRecs b src 256 img) (bufAfter nm ex b 256) e,
          init_FCB_buf nm ex, 2, 256⟩ :=
  ⟨fun m hm hc => loop_run nm ex e b src img m hb2 hm hc,
   loop_run_256 nm ex e b src img hb2 he⟩

/-- Witness for C2's amended statement. -/
theorem C2_flush_only_at_256_witness :
    (∀ m, m ≤ 255 → (∀ i, i < m → 0 + i / 128 ≤ 127) →
      writeLoop nmA exB ((0 : Int) - 1) (1 : Int) ((List.range m).map (chunk srcC1))
          ⟨deadImg, init_FCB_buf nmA exB, 0, 0⟩
        = .ok ⟨imgRecs 1 srcC1 m deadImg, bufAfter nmA exB 1 m, m / 128, m⟩) ∧
    writeLoop nmA exB ((0 : Int) - 1) (1 : Int) ((List.range 256).map (chunk srcC1))
        ⟨deadImg, init_FCB_buf nmA exB, 0, 0⟩
      = .ok ⟨saveFCBimg (imgRecs 1 srcC1 256 deadImg) (bufAfter nmA exB 1 256) 0,
          init_FCB_buf nmA exB, 2, 256⟩ := by
  exact C2_flush_only_at_256 nmA exB 0 1 srcC1 deadImg (by norm_num) (by norm_num)

/-- Counterexample to C2 as stated: in the concrete 129-record run the final
directory holds a single matching entry while slot 0 = lastLiveEntryIndex + 1
still carries its dead byte 0xE5 - no entry was persisted at the moment
exactly 128 records had accumulated. -/
theorem C2_counterexample :
    (chainEntries (write_in deadImg fnAB srcC1).2 nmA exB).length = 1 ∧
    entryByte (write_in deadImg fnAB srcC1).2 0 0 = 0xE5 := by
  have hn : numChunks srcC1.length = 129 := by rw [srcC1_length]; rfl
  have h := run_entries deadImg fnAB srcC1 nmA exB 0 1 129 rfl (by decide) hn (by omega)
    (by omega) (by norm_num) (by intro i hi; omega)
    (fun j _ => nmA_lt j) (fun j _ => exB_lt j)
  norm_num at h
  obtain ⟨h1, h2, h3, h4, h5, h6, h7, h8⟩ := h
  constructor
  · rw [h7]
    rfl
  · rw [h6 0 (by norm_num) (by norm_num) 0 (by norm_num)]
    decide

/-- C6 (amended): writing a non-conflicting source file of exactly 16384
bytes (128 records) yields exactly one new directory entry, at slot
lastLiveEntryIndex + 2, whose record-count byte is the full sentinel 0x80 -
but its allocation map holds 8 nonzero block numbers, not 16: a 2048-byte
data block holds 16 records, so 128 records span 8 blocks.  All other slots
are unchanged. -/
theorem C6_full_entry_16384 (img : Image) (fn src : List Nat) (nm ex : Nat → Nat)
    (e b : Nat)
    (hsep : separate_name fn = .ok ⟨nm, ex⟩)
    (hscan : same_name_check img nm ex = ⟨false, (e : Int) - 1, (b : Int)⟩)
    (hlen : src.length = 16384) (he : e ≤ 126)
    (hnm : ∀ j, j < 8 → nm j < 256) (hex : ∀ j, j < 3 → ex j < 256) :
    (write_in img fn src).1 = Outcome.Success ∧
    chainEntries (write_in img fn src).2 nm ex = [e + 1] ∧
    entryByte (write_in img fn src).2 (e + 1) 12 = 0 ∧
    entryByte (write_in img fn src).2 (e + 1) 15 = 0x80 ∧
    (∀ i, i < 8 → entryByte (write_in img fn src).2 (e + 1) (16 + i) = b + 1 + i) ∧
    (∀ i, 8 ≤ i → i < 16 → entryByte (write_in img fn src).2 (e + 1) (16 + i) = 0) ∧
    (∀ i, i < 128 → i ≠ e + 1 → ∀ j, j < 32 →
      entryByte (write_in img fn src).2 i j = entryByte img i j) := by
  have hn : numChunks src.length = 128 := by rw [hlen]; rfl
  have h := run_entries img fn src nm ex e b 128 hsep hscan hn (by omega) (by omega)
    (by norm_num; omega) (by intro i hi; omega) hnm hex
  norm_num at h
  obtain ⟨h1, h2, h3, h4, h5, h6, h7, h8⟩ := h
  refine ⟨h1, h7, h3, h4, ?_, ?_, h6⟩
  · intro i hi
    have h9 := h5 i (by omega)
    rwa [if_pos (by omega)] at h9
  · intro i hi1 hi2
    have h9 := h5 i (by omega)
    rwa [if_neg (by omega)] at h9

/-- Witness for C6's amended statement on the all-dead image. -/
theorem C6_full_entry_16384_witness :
    (write_in deadImg fnAB srcC6).1 = Outcome.Success ∧
    chainEntries (write_in deadImg fnAB srcC6).2 nmA exB = [0 + 1] ∧
    entryByte (write_in deadImg fnAB srcC6).2 (0 + 1) 12 = 0 ∧
    entryByte (write_in deadImg fnAB srcC6).2 (0 + 1) 15 = 0x80 ∧
    (∀ i, i < 8 → entryByte (write_in deadImg fnAB srcC6).2 (0 + 1) (16 + i) = 1 + 1 + i) ∧
    (∀ i, 8 ≤ i → i < 16 → entryByte (write_in deadImg fnAB srcC6).2 (0 + 1) (16 + i) = 0) ∧
    (∀ i, i < 128 → i ≠ 0 + 1 → ∀ j, j < 32 →
      entryByte (write_in deadImg fnAB srcC6).2 i j = entryByte deadImg i j) :=
  C6_full_entry_16384 deadImg fnAB srcC6 nmA exB 0 1 rfl (by decide)
    srcC6_length (by norm_num) (fun j _ => nmA_lt j) (fun j _ => exB_lt j)

/-- Counterexample to C6 as stated: in the concrete 16384-byte write the one
resulting entry has record-count byte 0x80 but its allocation-map byte at
index 8 is 0, so the map does not hold 16 nonzero block numbers. -/
theorem C6_counterexample :
    chainEntries (write_in deadImg fnAB srcC6).2 nmA exB = [1] ∧
    entryByte (write_in deadImg fnAB srcC6).2 1 15 = 0x80 ∧
    entryByte (write_in deadImg fnAB srcC6).2 1 (16 + 8) = 0 := by
  have hn : numChunks srcC6.length = 128 := by rw [srcC6_length]; rfl
  have h := run_entries deadImg fnAB srcC6 nmA exB 0 1 128 rfl (by decide) hn (by omega)
    (by omega) (by norm_num) (by intro i hi; omega)
    (fun j _ => nmA_lt j) (fun j _ => exB_lt j)
  norm_num at h
  obtain ⟨h1, h2, h3, h4, h5, h6, h7, h8⟩ := h
  refine ⟨h7, h4, ?_⟩
  have h9 := h5 8 (by omega)
  rwa [if_neg (by omega)] at h9

theorem srcC9_length : srcC9.length = 32768 := by
  rw [srcC9, List.length_replicate]

/-- C9: for a non-conflicting 32768-byte (256-record) source file the
mid-loop flush and the final unconditional flush target the same directory
slot lastLiveEntryIndex + 1: the loop leaves a persisted full entry there
(record-count byte 0x80, extent byte 1, 16 allocation-map entries), and the
final flush overwrites that same slot with the freshly reset buffer, whose
record-count byte is 0 and whose allocation map is all zeros. -/
theorem C9_final_flush_overwrites (img : Image) (fn src : List Nat) (nm ex : Nat → Nat)
    (e b : Nat)
    (hsep : separate_name fn = .ok ⟨nm, ex⟩)
    (hscan : same_name_check img nm ex = ⟨false, (e : Int) - 1, (b : Int)⟩)
    (hlen : src.length = 32768) (he : e ≤ 126) :
    writeLoop nm ex ((e : Int) - 1) (b : Int) (chunks src) ⟨img, init_FCB_buf nm ex, 0, 0⟩
      = .ok ⟨saveFCBimg (imgRecs b src 256 img) (bufAfter nm ex b 256) e,
          init_FCB_buf nm ex, 2, 256⟩ ∧
    entryByte (saveFCBimg (imgRecs b src 256 img) (bufAfter nm ex b 256) e) e 15 = 0x80 ∧
    entryByte (saveFCBimg (imgRecs b src 256 img) (bufAfter nm ex b 256) e) e 12 = 1 ∧
    (∀ i, i < 16 →
      entryByte (saveFCBimg (imgRecs b src 256 img) (bufAfter nm ex b 256) e) e (16 + i)
        = b + 1 + i) ∧
    (write_in img fn src).1 = Outcome.Success ∧
    entryByte (write_in img fn src).2 e 0 = 0 ∧
    entryByte (write_in img fn src).2 e 15 = 0 ∧
    (∀ i, i < 16 → entryByte (write_in img fn src).2 e (16 + i) = 0) ∧
    (∀ i, i < 128 → i ≠ e → ∀ j, j < 32 →
      entryByte (write_in img fn src).2 i j = entryByte img i j) := by
  have hb1 : 1 ≤ b := by
    have h := (scan_llbn_bounds img nm ex).1
    rw [hscan] at h
    have h2 : (1 : Int) ≤ (b : Int) := h
    exact_mod_cast h2
  have hb2 : b ≤ 127 := by
    have h := (scan_llbn_bounds img nm ex).2
    rw [hscan] at h
    have h2 : (b : Int) ≤ 127 := h
    exact_mod_cast h2
  have hn : numChunks src.length = 256 := by rw [hlen]; rfl
  have hch : chunks src = (List.range 256).map (chunk src) := by
    rw [chunks, hn]
  have heq := write_in_eq_256 img fn src nm ex e b hsep hscan hb2 he hn
  refine ⟨?_, ?_, ?_, ?_, ?_, ?_, ?_, ?_, ?_⟩
  · rw [hch]
    exact loop_run_256 nm ex e b src img hb2 he
  · rw [entry_at_save _ _ _ _ (by omega), bufAfter_15 _ _ _ _ (by omega)]
    norm_num
  · rw [entry_at_save _ _ _ _ (by omega), bufAfter_12 _ _ _ _ (by omega) (by omega)]
  · intro i hi
    rw [entry_at_save _ _ _ _ (by omega), bufAfter_map _ _ _ _ _ (by omega) hi,
      if_pos (by omega)]
    omega
  · rw [heq]
  · rw [heq]
    simp only
    rw [entry_at_save _ _ _ _ (by omega)]
    rfl
  · rw [heq]
    simp only
    rw [entry_at_save _ _ _ _ (by omega)]
    rfl
  · intro i hi
    rw [heq]
    simp only
    rw [entry_at_save _ _ _ _ (by omega)]
    show init_FCB_buf nm ex (16 + i) % 256 = 0
    rw [init_FCB_buf, if_neg (by omega), if_neg (by omega), if_neg (by omega)]
  · intro i hi hne j hj
    rw [heq]
    simp only
    rw [entry_other_save _ _ _ _ _ (by omega) hi hne hj]
    exact post_entry_other img b src 256 _ _ i j (by omega) hi hne hj hb1

/-- Witness for C9 on the all-dead image with name A.B. -/
theorem C9_final_flush_overwrites_witness :
    writeLoop nmA exB ((0 : Nat) - 1 : Int) ((1 : Nat) : Int) (chunks srcC9)
        ⟨deadImg, init_FCB_buf nmA exB, 0, 0⟩
      = .ok ⟨saveFCBimg (imgRecs 1 srcC9 256 deadImg) (bufAfter nmA exB 1 256) 0,
          init_FCB_buf nmA exB, 2, 256⟩ ∧
    entryByte (saveFCBimg (imgRecs 1 srcC9 256 deadImg) (bufAfter nmA exB 1 256) 0) 0 15
      = 0x80 ∧
    entryByte (saveFCBimg (imgRecs 1 srcC9 256 deadImg) (bufAfter nmA exB 1 256) 0) 0 12
      = 1 ∧
    (∀ i, i < 16 →
      entryByte (saveFCBimg (imgRecs 1 srcC9 256 deadImg) (bufAfter nmA exB 1 256) 0) 0 (16 + i)
        = 1 + 1 + i) ∧
    (write_in deadImg fnAB srcC9).1 = Outcome.Success ∧
    entryByte (write_in deadImg fnAB srcC9).2 0 0 = 0 ∧
    entryByte (write_in deadImg fnAB srcC9).2 0 15 = 0 ∧
    (∀ i, i < 16 → entryByte (write_in deadImg fnAB srcC9).2 0 (16 + i) = 0) ∧
    (∀ i, i < 128 → i ≠ 0 → ∀ j, j < 32 →
      entryByte (write_in deadImg fnAB srcC9).2 i j = entryByte deadImg i j) :=
  C9_final_flush_overwrites deadImg fnAB srcC9 nmA exB 0 1 rfl (by decide)
    srcC9_length (by norm_num)

theorem flatMap_chunks (src : List Nat) (n : Nat) :
    (List.range n).flatMap (chunk src) =
      (List.range (128 * n)).map
        (fun m => if m < src.length then src.getD m 0 % 256 else 0x1A) := by
  induction n with
  | zero => rfl
  | succ n ih =>
    rw [List.range_succ, List.flatMap_append, ih]
    have h1 : [n].flatMap (chunk src) = chunk src n := by
      rw [List.flatMap_cons, List.flatMap_nil, List.append_nil]
    rw [h1]
    have h2 : 128 * (n + 1) = 128 * n + 128 := by ring
    rw [h2, List.range_add, List.map_append, List.map_map]
    have h3 : chunk src n
        = (List.range 128).map
            ((fun m => if m < src.length then src.getD m 0 % 256 else 0x1A)
              ∘ (fun x => 128 * n + x)) := by
      rw [chunk]
      apply List.map_congr_left
      intro a ha
      rfl
    rw [h3]

theorem padded_src (src : List Nat) (n : Nat) (hb : ∀ x ∈ src, x < 256)
    (h1 : src.length ≤ 128 * n) :
    (List.range (128 * n)).map
        (fun m => if m < src.length then src.getD m 0 % 256 else 0x1A)
      = src ++ List.replicate (128 * n - src.length) 0x1A := by
  have hlen : 128 * n = src.length + (128 * n - src.length) := by omega
  rw [hlen, List.range_add, List.map_append, List.map_map]
  congr 1
  · apply List.ext_getElem
    · simp
    · intro i hi1 hi2
      simp only [List.getElem_map, List.getElem_range]
      rw [if_pos (by simpa using hi2), List.getD_eq_getElem _ _ (by simpa using hi2)]
      exact Nat.mod_eq_of_lt (hb _ (List.getElem_mem _))
  · rw [List.eq_replicate_iff]
    constructor
    · simp
    · intro x hx
      simp only [List.mem_map, List.mem_range, Function.comp] at hx
      obtain ⟨a, ha, hax⟩ := hx
      rw [if_neg (by omega)] at hax
      omega

theorem flatMap_congr_mem {α β : Type} {l : List α} {f g : α → List β}
    (h : ∀ a ∈ l, f a = g a) : l.flatMap f = l.flatMap g := by
  induction l with
  | nil => rfl
  | cons x xs ih =>
    rw [List.flatMap_cons, List.flatMap_cons, h x (by simp),
      ih (fun a ha => h a (by simp [ha]))]

/-- C5 (amended): for a source file whose size S is not a multiple of 128
and is at most 32640 bytes (at most 255 records), a non-conflicting write
succeeds and reading back, in order, every record referenced by the
resulting entry chain reproduces the S source bytes exactly, followed by
0x1A fill bytes up to the next 128-byte boundary.  (The restriction to at
most 255 records is forced: from 256 records on, the final flush overwrites
the mid-loop entry and the chain no longer references all written records -
see the 32769-byte counterexample.) -/
theorem C5_roundtrip_below_256_records (img : Image) (fn src : List Nat)
    (nm ex : Nat → Nat) (e b : Nat)
    (hsep : separate_name fn = .ok ⟨nm, ex⟩)
    (hscan : same_name_check img nm ex = ⟨false, (e : Int) - 1, (b : Int)⟩)
    (hbytes : ∀ x ∈ src, x < 256)
    (hS : src.length % 128 ≠ 0) (hS2 : src.length ≤ 32640) (he : e ≤ 126)
    (hnm : ∀ j, j < 8 → nm j < 256) (hex : ∀ j, j < 3 → ex j < 256) :
    (write_in img fn src).1 = Outcome.Success ∧
    chainReadback (write_in img fn src).2 nm ex
      = src ++ List.replicate (128 * numChunks src.length - src.length) 0x1A := by
  have hb1 : 1 ≤ b := by
    have h := (scan_llbn_bounds img nm ex).1
    rw [hscan] at h
    have h2 : (1 : Int) ≤ (b : Int) := h
    exact_mod_cast h2
  have hn1 : 1 ≤ numChunks src.length := by
    rw [numChunks]
    omega
  have hn2 : numChunks src.length ≤ 255 := by
    rw [numChunks]
    omega
  have h := run_entries img fn src nm ex e b (numChunks src.length) hsep hscan rfl hn1 hn2
    (by have h2 : numChunks src.length / 128 % 2 ≤ 1 := by omega
        omega)
    (by intro i hi
        have h2 : i / 128 ≤ numChunks src.length / 128 := Nat.div_le_div_right (by omega)
        have h3 : numChunks src.length / 128 ≤ 1 := by omega
        omega)
    hnm hex
  obtain ⟨h1, h2, h3, h4, h5, h6, h7, h8⟩ := h
  refine ⟨h1, ?_⟩
  have hnum : entryNumRecs (write_in img fn src).2 (e + numChunks src.length / 128 % 2)
      = numChunks src.length := by
    rw [entryNumRecs, h3, h4]
    by_cases hc : numChunks src.length % 128 = 0
    · rw [if_neg (show ¬numChunks src.length % 128 ≠ 0 from by omega), if_pos rfl]
      omega
    · rw [if_pos hc, if_neg (show ¬numChunks src.length % 128 = 0x80 from by omega)]
      omega
  have hrecs : entryRecords (write_in img fn src).2 (e + numChunks src.length / 128 % 2)
      = (List.range (numChunks src.length)).map (fun j => 16 * (b + 1) + j) := by
    rw [entryRecords, hnum]
    apply List.map_congr_left
    intro j hj
    rw [List.mem_range] at hj
    rw [h5 (j / 16) (by omega), if_pos (by omega)]
    omega
  have hrr : ∀ k, k < numChunks src.length →
      readRecord (write_in img fn src).2 (16 * (b + 1) + k) = chunk src k := by
    intro k hk
    rw [readRecord, chunk]
    apply List.map_congr_left
    intro j hj
    rw [List.mem_range] at hj
    rw [h8 k hk j hj, chunk_getD src k j hj]
  rw [chainReadback, chainRecords, h7, List.flatMap_cons, List.flatMap_nil,
    List.append_nil, hrecs, List.flatMap_map]
  have hflat : (List.range (numChunks src.length)).flatMap
        (fun j => readRecord (write_in img fn src).2 (16 * (b + 1) + j))
      = (List.range (numChunks src.length)).flatMap (chunk src) :=
    flatMap_congr_mem (fun a ha => hrr a (by rwa [← List.mem_range]))
  rw [hflat, flatMap_chunks]
  exact padded_src src (numChunks src.length) hbytes (by rw [numChunks]; omega)

theorem srcRt_length : srcRt.length = 200 := by
  rw [srcRt, List.length_replicate]

/-- Witness for C5's amended statement: a 200-byte file round-trips. -/
theorem C5_roundtrip_below_256_records_witness :
    (write_in deadImg fnAB srcRt).1 = Outcome.Success ∧
    chainReadback (write_in deadImg fnAB srcRt).2 nmA exB
      = srcRt ++ List.replicate (128 * numChunks srcRt.length - srcRt.length) 0x1A :=
  C5_roundtrip_below_256_records deadImg fnAB srcRt nmA exB 0 1 rfl (by decide)
    (by intro x hx
        rw [srcRt, List.mem_replicate] at hx
        omega)
    (by rw [srcRt_length]; norm_num) (by rw [srcRt_length]; norm_num) (by norm_num)
    (fun j _ => nmA_lt j) (fun j _ => exB_lt j)

/-- Counterexample to C5 as stated: the 32769-byte write succeeds (its size
is not a multiple of 128), but the final flush overwrote the only persisted
entry, so the resulting chain references one record and its readback cannot
equal the 32769 source bytes plus 127 fill bytes. -/
theorem C5_counterexample :
    (write_in deadImg fnAB srcC5).1 = Outcome.Success ∧
    chainReadback (write_in deadImg fnAB srcC5).2 nmA exB ≠ srcC5 ++ List.replicate 127 0x1A := by
  have heq := write_in_eq_257 deadImg fnAB srcC5 nmA exB 0 1 rfl (by decide)
    (by norm_num) (by norm_num) (by rw [srcC5_length]; rfl)
  constructor
  · rw [heq]
  · have himg : (write_in deadImg fnAB srcC5).2 = saveFCBimg
        (writeBytes (saveFCBimg (imgRecs 1 srcC5 256 deadImg) (bufAfter nmA exB 1 256) 0)
          (convert_addr (head_addr_of_record (16 * (1 + 1) + 256))) (chunk srcC5 256))
        (fcbUpd ((1 : Nat) : Int) 2 257 (init_FCB_buf nmA exB)) 0 :=
      congrArg Prod.snd heq
    have h0 : entryByte (write_in deadImg fnAB srcC5).2 0 0 = 0 := by
      rw [himg, entry_at_save _ _ _ _ (by omega), fcbUpd_low _ _ _ _ _ (by omega)]
      rfl
    have h12 : entryByte (write_in deadImg fnAB srcC5).2 0 12 = 2 := by
      rw [himg, entry_at_save _ _ _ _ (by omega), fcbUpd_12]
    have h15 : entryByte (write_in deadImg fnAB srcC5).2 0 15 = 1 := by
      rw [himg, entry_at_save _ _ _ _ (by omega), fcbUpd_15]
      norm_num
    have hmatch : is_name_ext (write_in deadImg fnAB srcC5).2 nmA exB 0 = true := by
      rw [is_name_ext_iff]
      constructor
      · intro j hj
        rw [himg, entry_at_save _ _ _ _ (by omega), fcbUpd_low _ _ _ _ _ (by omega)]
        show init_FCB_buf nmA exB (1 + j) % 256 = nmA j
        rw [init_FCB_buf, if_neg (by omega), if_pos (by omega)]
        have he1 : 1 + j - 1 = j := by omega
        rw [he1]
        exact Nat.mod_eq_of_lt (nmA_lt j)
      · intro j hj
        rw [himg, entry_at_save _ _ _ _ (by omega), fcbUpd_low _ _ _ _ _ (by omega)]
        show init_FCB_buf nmA exB (9 + j) % 256 = exB j
        rw [init_FCB_buf, if_neg (by omega), if_neg (by omega), if_pos (by omega)]
        have he1 : 9 + j - 9 = j := by omega
        rw [he1]
        exact Nat.mod_eq_of_lt (exB_lt j)
    have hother : ∀ i, i < 128 → i ≠ 0 → ∀ j, j < 32 →
        entryByte (write_in deadImg fnAB srcC5).2 i j = entryByte deadImg i j := by
      intro i hi hne j hj
      rw [himg, entry_other_save _ _ _ _ _ (by omega) hi hne hj]
      show entryByte (writeBytes (saveFCBimg (imgRecs 1 srcC5 256 deadImg)
          (bufAfter nmA exB 1 256) 0)
          (convert_addr (head_addr_of_record (16 * (1 + 1) + 256))) (chunk srcC5 256)) i j
        = entryByte deadImg i j
      rw [entryByte, readByte, writeBytes_lt _ ?hlt]
      case hlt =>
        have hle : head_addr_of_FCB i + (j + 1)
            ≤ head_addr_of_record (16 * (1 + 1) + 256) := by
          rw [head_addr_of_FCB_eq, head_addr_of_record_eq]
          omega
        have h2 := convert_addr_add_le hle
        omega
      show entryByte (saveFCBimg (imgRecs 1 srcC5 256 deadImg) (bufAfter nmA exB 1 256) 0) i j
        = entryByte deadImg i j
      exact post_entry_other deadImg 1 srcC5 256 _ 0 i j (by omega) hi hne hj (by omega)
    have hchain : chainEntries (write_in deadImg fnAB srcC5).2 nmA exB = [0] :=
      chainEntries_single deadImg (write_in deadImg fnAB srcC5).2 nmA exB 0 (by omega) (by decide) hother h0 hmatch
    have hnum : entryNumRecs (write_in deadImg fnAB srcC5).2 0 = 1 := by
      rw [entryNumRecs, h12, h15]
      norm_num
    intro hcon
    have hlen := congrArg List.length hcon
    rw [chainReadback, chainRecords, hchain, List.flatMap_cons, List.flatMap_nil,
      List.append_nil, entryRecords, hnum,
      show List.range 1 = [0] from rfl, List.map_cons, List.map_nil,
      List.flatMap_cons, List.flatMap_nil, List.append_nil, readRecord] at hlen
    simp only [List.length_map, List.length_range, List.length_append,
      List.length_replicate, srcC5_length] at hlen
    omega
